import Mathlib

/-!
# Verification of the Chaum-Pedersen client/server authentication core

This file embeds the Chaum-Pedersen protocol engine
(`chaum-pedersen/src/chaum_pedersen.rs`) and the authentication server state
machine (`server/src/state.rs`, `server/src/server.rs`) in Lean, and proves
properties of the embedded definitions.

Conventions of the embedding:
* Rust `BigInt` values are modelled as `Int`.
* `BigInt::modpow` panics when the exponent is negative or the modulus is
  zero; a panic is modelled as `Option.none`.
* Rust's `%` on `BigInt` is truncated remainder, modelled by `Int.tmod`.
* `HashMap<String, T>` registries are modelled as association lists with
  lookup (`mapGet`), remove-all-copies (`mapRemove`) and replacing insert
  (`mapInsert`); the server state constructors only ever build lists with
  pairwise-distinct keys, so these have exactly the map semantics of the
  source.
* Randomly generated scalars (`generate_random`) and freshly minted UUID
  identifiers are passed as explicit arguments, since they are external
  inputs to the pure logic under verification.
-/

set_option maxRecDepth 10000

namespace ChaumPedersen

/-! ## The fixed group parameters (`chaum-pedersen/src/lib.rs`) -/

/-- The prime modulus `p` of `DEFAULT_PARAMS`. -/
def P : Nat :=
  42765216643065397982265462252423826320512529931694366715111734768493812630447

/-- The subgroup order `q` of `DEFAULT_PARAMS`. -/
def Q : Nat :=
  21382608321532698991132731126211913160256264965847183357555867384246906315223

/-- The generator `g = 4` of `DEFAULT_PARAMS`. -/
def G : Nat := 4

/-- The generator `h = 9` of `DEFAULT_PARAMS`. -/
def H : Nat := 9

/-- The `Parameters` struct of `chaum-pedersen/src/lib.rs`. -/
structure Parameters where
  bit_size : Nat
  p : Int
  q : Int
  g : Int
  h : Int

/-- The `DEFAULT_PARAMS` constant of `chaum-pedersen/src/lib.rs`. -/
def DEFAULT_PARAMS : Parameters :=
  { bit_size := 256, p := (P : Int), q := (Q : Int), g := (G : Int), h := (H : Int) }

/-! ## Fast modular exponentiation

An executable square-and-multiply exponentiation with explicit fuel, used to
evaluate powers with 256-bit exponents inside the kernel, together with its
correctness proof against `Nat.pow`. -/

/-- Square-and-multiply `b ^ e % m`, recursing on explicit fuel. -/
def modPowAux : Nat → Nat → Nat → Nat → Nat
  | 0, _, _, m => 1 % m
  | fuel + 1, b, e, m =>
    if e = 0 then 1 % m
    else
      let r := modPowAux fuel (b * b % m) (e / 2) m
      if e % 2 = 1 then r * b % m else r

theorem modPowAux_correct (fuel : Nat) :
    ∀ b e m : Nat, 0 < m → e < 2 ^ fuel → modPowAux fuel b e m = b ^ e % m := by
  induction fuel with
  | zero =>
    intro b e m _ he
    have : e = 0 := by simpa using he
    simp [modPowAux, this]
  | succ n ih =>
    intro b e m hm he
    rw [modPowAux]
    by_cases he0 : e = 0
    · simp [he0]
    · simp only [he0, if_false]
      have hlt : e / 2 < 2 ^ n := by
        have h2n : e < 2 ^ n * 2 := by rw [pow_succ] at he; exact he
        omega
      rw [ih (b * b % m) (e / 2) m hm hlt]
      have hbb : (b * b % m) ^ (e / 2) % m = (b * b) ^ (e / 2) % m := by
        rw [← Nat.pow_mod]
      have hsq : (b * b) ^ (e / 2) = b ^ (2 * (e / 2)) := by
        rw [two_mul, pow_add, ← mul_pow]
      rcases Nat.even_or_odd e with heven | hodd
      · have h2 : ¬ e % 2 = 1 := by
          have := Nat.even_iff.mp heven; omega
        have hee : 2 * (e / 2) = e := by omega
        rw [if_neg h2, hbb, hsq, hee]
      · have h2 : e % 2 = 1 := Nat.odd_iff.mp hodd
        have hee : 2 * (e / 2) + 1 = e := by omega
        rw [if_pos h2, hbb, hsq, Nat.mod_mul_mod, ← pow_succ, hee]

/-! ## The Chaum-Pedersen engine (`chaum-pedersen/src/chaum_pedersen.rs`) -/

/-- Result of `ChaumPedersen::verify`: `Ok(())` or the reported
`anyhow!("Failed to verify challenge, ...")` error. -/
inductive CPResult where
  | ok
  | verificationFailed
deriving DecidableEq

/-- Model of `BigInt::modpow` of num-bigint: `b ^ e mod m`, reduced into `[0, m)` for the
positive moduli used here; the library panics (modelled as `none`) when the
exponent is negative or the modulus is zero. -/
def modpow (b e m : Int) : Option Int :=
  if e < 0 ∨ m = 0 then none
  else some (b ^ e.toNat % m)

/-- Model of `ChaumPedersen::commit`: `(g^k mod p, h^k mod p)`. -/
def commit (k : Int) : Option (Int × Int) :=
  match modpow DEFAULT_PARAMS.g k DEFAULT_PARAMS.p,
        modpow DEFAULT_PARAMS.h k DEFAULT_PARAMS.p with
  | some r1, some r2 => some (r1, r2)
  | _, _ => none

/-- Model of `ChaumPedersen::solve_challenge`: `s = (k - c*x) % q` (Rust `%` is the
truncated remainder), with `q` added when that remainder is negative. -/
def solve_challenge (x k c : Int) : Int :=
  if Int.tmod (k - c * x) DEFAULT_PARAMS.q < 0 then
    Int.tmod (k - c * x) DEFAULT_PARAMS.q + DEFAULT_PARAMS.q
  else
    Int.tmod (k - c * x) DEFAULT_PARAMS.q

/-- Model of `ChaumPedersen::verify`: recompute `true_r1 = g^s * y1^c mod p` and
`true_r2 = h^s * y2^c mod p` and compare with the received `r1`, `r2`. -/
def verify (y1 y2 r1 r2 s c : Int) : Option CPResult :=
  match modpow DEFAULT_PARAMS.g s DEFAULT_PARAMS.p, modpow y1 c DEFAULT_PARAMS.p,
        modpow DEFAULT_PARAMS.h s DEFAULT_PARAMS.p, modpow y2 c DEFAULT_PARAMS.p with
  | some gs, some y1c, some hs, some y2c =>
    if r1 ≠ Int.tmod (gs * y1c) DEFAULT_PARAMS.p ∨
       r2 ≠ Int.tmod (hs * y2c) DEFAULT_PARAMS.p then
      some CPResult.verificationFailed
    else
      some CPResult.ok
  | _, _, _, _ => none

/-! ## The server data model (`server/src/types.rs`, `server/src/state.rs`) -/

/-- The `User` record of `server/src/types.rs`. -/
structure User where
  id : String
  y1 : Int
  y2 : Int
  auth_id : Option String
  session_id : Option String
deriving DecidableEq

/-- The `Challenge` record of `server/src/types.rs`. -/
structure Challenge where
  id : String
  c : Int
  r1 : Int
  r2 : Int
  user_id : String
deriving DecidableEq

/-- The `Session` record of `server/src/types.rs`. -/
structure Session where
  id : String
  user_id : String
deriving DecidableEq

/-- Lookup in an association-list model of `HashMap<String, α>`. -/
def mapGet {α : Type} : List (String × α) → String → Option α
  | [], _ => none
  | (k, v) :: rest, key => if key = k then some v else mapGet rest key

/-- Model of `HashMap::remove` (dropping every pair with the given key). -/
def mapRemove {α : Type} : List (String × α) → String → List (String × α)
  | [], _ => []
  | (k, v) :: rest, key =>
    if k = key then mapRemove rest key else (k, v) :: mapRemove rest key

/-- Model of `HashMap::insert` (replacing any existing binding of the key). -/
def mapInsert {α : Type} (m : List (String × α)) (key : String) (v : α) :
    List (String × α) :=
  mapRemove m key ++ [(key, v)]

/-- The three registries of `PedersenChaumAuthServerState`. -/
structure PedersenChaumAuthServerState where
  users : List (String × User)
  challenges : List (String × Challenge)
  sessions : List (String × Session)
deriving DecidableEq

/-- Model of `PedersenChaumAuthServerState::new()`. -/
def emptyState : PedersenChaumAuthServerState := ⟨[], [], []⟩

/-- The closed error taxonomy the server surfaces as `tonic::Status` values. -/
inductive AuthError where
  | userNotFound
  | challengeNotFound
  | verificationFailed
deriving DecidableEq

/-- Model of `PedersenChaumAuthServerState::register_user`: insert-or-overwrite the user
record with fresh commitments and cleared `auth_id`/`session_id`. -/
def register_user (st : PedersenChaumAuthServerState) (user_name : String)
    (y1 y2 : Int) : PedersenChaumAuthServerState :=
  { st with
    users := mapInsert st.users user_name
      { id := user_name, y1 := y1, y2 := y2, auth_id := none, session_id := none } }

/-- Model of `PedersenChaumAuthServerState::create_authentication_challenge`. The random
challenge scalar `c` and the fresh UUID `auth_id` are generated by the caller
(`server.rs`) and passed in. -/
def create_authentication_challenge (st : PedersenChaumAuthServerState)
    (user_name auth_id : String) (r1 r2 c : Int) :
    Except AuthError Unit × PedersenChaumAuthServerState :=
  match mapGet st.users user_name with
  | some user_data =>
    let challenges1 :=
      match user_data.auth_id with
      | some user_auth_id => mapRemove st.challenges user_auth_id
      | none => st.challenges
    (Except.ok (),
      { st with
        users := mapInsert st.users user_name { user_data with auth_id := some auth_id },
        challenges := mapInsert challenges1 auth_id
          { id := auth_id, c := c, r1 := r1, r2 := r2, user_id := user_name } })
  | none => (Except.error AuthError.userNotFound, st)

/-- Model of `PedersenChaumAuthServerState::create_session`. -/
def create_session (st : PedersenChaumAuthServerState)
    (user_name session_id : String) :
    Except AuthError Unit × PedersenChaumAuthServerState :=
  match mapGet st.users user_name with
  | some user =>
    (Except.ok (),
      { st with
        users := mapInsert st.users user_name { user with session_id := some session_id },
        sessions := mapInsert st.sessions session_id
          { id := session_id, user_id := user_name } })
  | none => (Except.error AuthError.userNotFound, st)

/-- Model of `PedersenChaumAuthServer::verify_authentication` (`server/src/server.rs`):
look up the challenge, look up the owning user, run `verify`, and on success
mint a session via `create_session`. The fresh UUID `session_id` is passed in;
a panic inside `verify` is propagated as `none`. -/
def verify_authentication (st : PedersenChaumAuthServerState) (auth_id : String)
    (s : Int) (session_id : String) :
    Option (Except AuthError String × PedersenChaumAuthServerState) :=
  match mapGet st.challenges auth_id with
  | none => some (Except.error AuthError.challengeNotFound, st)
  | some challenge =>
    match mapGet st.users challenge.user_id with
    | none => some (Except.error AuthError.userNotFound, st)
    | some user =>
      match verify user.y1 user.y2 challenge.r1 challenge.r2 s challenge.c with
      | none => none
      | some CPResult.verificationFailed =>
        some (Except.error AuthError.verificationFailed, st)
      | some CPResult.ok =>
        match create_session st user.id session_id with
        | (Except.ok _, st') => some (Except.ok session_id, st')
        | (Except.error e, st') => some (Except.error e, st')

/-! ## Derived notions: key distinctness, ownership count, reachability -/

/-- Distinctness of the keys of an association-list registry. -/
def keysNodup {α : Type} (m : List (String × α)) : Prop :=
  (m.map Prod.fst).Nodup

/-- Number of entries of the challenge registry owned by a given user. -/
def countOwned : List (String × Challenge) → String → Nat
  | [], _ => 0
  | (_, ch) :: rest, u => (if ch.user_id = u then 1 else 0) + countOwned rest u

/-- Server states reachable from the empty state by `register_user`,
`create_authentication_challenge` (with fresh challenge ids) and
`create_session`. -/
inductive Reachable : PedersenChaumAuthServerState → Prop where
  | empty : Reachable emptyState
  | register (st : PedersenChaumAuthServerState) (u : String) (y1 y2 : Int)
      (h : Reachable st) : Reachable (register_user st u y1 y2)
  | challenge (st : PedersenChaumAuthServerState) (u auth_id : String)
      (r1 r2 c : Int) (h : Reachable st)
      (hfresh : mapGet st.challenges auth_id = none) :
      Reachable (create_authentication_challenge st u auth_id r1 r2 c).2
  | session (st : PedersenChaumAuthServerState) (u session_id : String)
      (h : Reachable st) : Reachable (create_session st u session_id).2

/-- As `Reachable`, but a user is only (re-)registered while owning no live
challenge entry. -/
inductive ReachableSR : PedersenChaumAuthServerState → Prop where
  | empty : ReachableSR emptyState
  | register (st : PedersenChaumAuthServerState) (u : String) (y1 y2 : Int)
      (h : ReachableSR st) (hnoch : countOwned st.challenges u = 0) :
      ReachableSR (register_user st u y1 y2)
  | challenge (st : PedersenChaumAuthServerState) (u auth_id : String)
      (r1 r2 c : Int) (h : ReachableSR st)
      (hfresh : mapGet st.challenges auth_id = none) :
      ReachableSR (create_authentication_challenge st u auth_id r1 r2 c).2
  | session (st : PedersenChaumAuthServerState) (u session_id : String)
      (h : ReachableSR st) : ReachableSR (create_session st u session_id).2

/-- Challenge-registry invariant: challenge keys are distinct, and every
challenge entry is pointed back to by its owner's `auth_id`. -/
def ChallengeInv (st : PedersenChaumAuthServerState) : Prop :=
  keysNodup st.challenges ∧
  ∀ p ∈ st.challenges, ∃ usr, mapGet st.users p.2.user_id = some usr ∧
    usr.auth_id = some p.1

/-! ## Concrete states used by counterexamples and witnesses -/

/-- First C4 counterexample state: register `"u"`. -/
def c4StateA : PedersenChaumAuthServerState := register_user emptyState "u" 1 2

/-- Then issue challenge `"A"` for `"u"`. -/
def c4StateB : PedersenChaumAuthServerState :=
  (create_authentication_challenge c4StateA "u" "A" 1 2 3).2

/-- Then re-register `"u"` (clears `auth_id`, keeps challenge `"A"`). -/
def c4StateC : PedersenChaumAuthServerState := register_user c4StateB "u" 1 2

/-- Then issue challenge `"B"` for `"u"`. -/
def c4StateD : PedersenChaumAuthServerState :=
  (create_authentication_challenge c4StateC "u" "B" 1 2 3).2

/-- A state holding a challenge for the never-registered user `"bob"`. -/
def c7State : PedersenChaumAuthServerState :=
  { users := [],
    challenges := [("c1", ⟨"c1", 0, 0, 0, "bob"⟩)],
    sessions := [] }

/-- Concrete C3 run: register `"alice"` with commitments of secret `x = 1`,
then issue challenge `"ch1"` with the commitments of ephemeral `k = 2` and
challenge scalar `c = 1` (so the honest response is `s = 1`). -/
def c3State1 : PedersenChaumAuthServerState :=
  (create_authentication_challenge (register_user emptyState "alice" 4 9)
    "alice" "ch1" 16 81 1).2

/-- The state after the first successful `VerifyAnswer` on `"ch1"`. -/
def c3State2 : PedersenChaumAuthServerState :=
  match verify_authentication c3State1 "ch1" 1 "sess1" with
  | some p => p.2
  | none => emptyState

instance : NeZero P := ⟨by decide⟩

/-! ## Arithmetic facts about the fixed parameters -/

theorem P_pos : 0 < P := by decide

theorem Q_pos : 0 < Q := by decide

theorem G_pow_Q_mod_P : G ^ Q % P = 1 := by
  have h := modPowAux_correct 256 G Q P P_pos (by decide)
  rw [← h]; decide

theorem H_pow_Q_mod_P : H ^ Q % P = 1 := by
  have h := modPowAux_correct 256 H Q P P_pos (by decide)
  rw [← h]; decide

/-- A truncated remainder by a positive modulus is greater than minus the
modulus. -/
theorem tmod_gt_neg {a b : Int} (hb : 0 < b) : -b < Int.tmod a b := by
  rcases a with m | m
  · have h0 : 0 ≤ Int.tmod (Int.ofNat m) b := Int.tmod_nonneg b (Int.ofNat_nonneg m)
    omega
  · rcases b with n | n
    · rcases n with _ | n
      · exact absurd hb (by decide)
      · have h : Int.tmod (Int.negSucc m) (Int.ofNat (n + 1)) =
            -(((m + 1) % (n + 1) : ℕ) : Int) := rfl
        rw [h, Int.ofNat_eq_natCast]
        have hlt : (m + 1) % (n + 1) < n + 1 := Nat.mod_lt _ (Nat.succ_pos n)
        omega
    · exact absurd hb (Int.not_lt.mpr (le_of_lt (Int.negSucc_lt_zero n)))

/-- The normalized response equals the Euclidean remainder mod `q`. -/
theorem solve_challenge_eq_emod (x k c : Int) :
    solve_challenge x k c = (k - c * x) % (Q : Int) := by
  have hq0 : (0 : Int) < DEFAULT_PARAMS.q := by decide
  have hqQ : DEFAULT_PARAMS.q = (Q : Int) := rfl
  set a := k - c * x with ha
  set t := Int.tmod a DEFAULT_PARAMS.q with ht
  have hdvd : DEFAULT_PARAMS.q ∣ t - a := by
    refine ⟨-(a.tdiv DEFAULT_PARAMS.q), ?_⟩
    have hh := Int.tmod_add_tdiv a DEFAULT_PARAMS.q
    rw [← ht] at hh
    linarith [hh]
  have hmod : a % DEFAULT_PARAMS.q = t % DEFAULT_PARAMS.q := Int.modEq_iff_dvd.mpr hdvd
  rw [← hqQ]
  unfold solve_challenge
  rw [← ha, ← ht]
  by_cases hneg : t < 0
  · rw [if_pos hneg, hmod]
    have hlb : 0 ≤ t + DEFAULT_PARAMS.q := by
      have := @tmod_gt_neg a DEFAULT_PARAMS.q hq0
      rw [← ht] at this
      omega
    have hub : t + DEFAULT_PARAMS.q < DEFAULT_PARAMS.q := by omega
    have hcalc : t % DEFAULT_PARAMS.q = t + DEFAULT_PARAMS.q := by
      calc t % DEFAULT_PARAMS.q
          = (t + 1 * DEFAULT_PARAMS.q) % DEFAULT_PARAMS.q := (Int.add_mul_emod_self).symm
        _ = t + DEFAULT_PARAMS.q := by
            rw [one_mul]
            exact Int.emod_eq_of_lt hlb hub
    exact hcalc.symm
  · rw [if_neg hneg, hmod]
    push_neg at hneg
    have hub : t < DEFAULT_PARAMS.q := by
      have := Int.tmod_lt_of_pos a hq0
      rw [← ht] at this
      exact this
    exact (Int.emod_eq_of_lt hneg hub).symm

theorem solve_challenge_nonneg (x k c : Int) : 0 ≤ solve_challenge x k c := by
  rw [solve_challenge_eq_emod]
  exact Int.emod_nonneg _ (by decide)

/-! ## Powers in `ZMod P` -/

theorem zmod_pow_Q_eq_one {g : ℕ} (hg : g ^ Q % P = 1) : (g : ZMod P) ^ Q = 1 := by
  have h1 : ((g ^ Q % P : ℕ) : ZMod P) = ((g ^ Q : ℕ) : ZMod P) := ZMod.natCast_mod _ _
  rw [hg] at h1
  push_cast at h1
  exact h1.symm

/-- In any monoid, exponents of an element whose `n`-th power is `1` can be
compared modulo `n`. -/
theorem pow_eq_pow_of_modEq {M : Type} [Monoid M] (a : M) {n i j : ℕ}
    (h1 : a ^ n = 1) (h : i ≡ j [MOD n]) : a ^ i = a ^ j := by
  have hd : orderOf a ∣ n := orderOf_dvd_of_pow_eq_one h1
  have h2 : i ≡ j [MOD orderOf a] := h.of_dvd hd
  calc a ^ i = a ^ (i % orderOf a) := (pow_mod_orderOf a i).symm
    _ = a ^ (j % orderOf a) := by rw [h2]
    _ = a ^ j := pow_mod_orderOf a j

/-- The core algebraic identity behind completeness: if the exponents agree
modulo `Q` and `g^Q ≡ 1 (mod P)`, the recomputed commitment matches. -/
theorem pow_check_core {g : ℕ} (hg : g ^ Q % P = 1) {x k c sn : ℕ}
    (hs : sn + x * c ≡ k [MOD Q]) :
    g ^ sn % P * ((g ^ x % P) ^ c % P) % P = g ^ k % P := by
  have hz := zmod_pow_Q_eq_one hg
  have hzz : ((g ^ sn % P * ((g ^ x % P) ^ c % P) : ℕ) : ZMod P) =
      ((g ^ k : ℕ) : ZMod P) := by
    push_cast [ZMod.natCast_mod]
    rw [← pow_mul, ← pow_add]
    exact pow_eq_pow_of_modEq _ hz hs
  exact (ZMod.natCast_eq_natCast_iff' _ _ _).mp hzz

/-! ## Evaluating the engine on non-negative exponents -/

theorem modpow_natCast (b : Int) (e : ℕ) {m : Int} (hm : m ≠ 0) :
    modpow b (e : Int) m = some (b ^ e % m) := by
  have hcond : ¬((e : Int) < 0 ∨ m = 0) := by
    push_neg
    exact ⟨Int.natCast_nonneg e, hm⟩
  unfold modpow
  rw [if_neg hcond, Int.toNat_natCast]

/-- Evaluation of `verify` at non-negative `s`, `c`: an if-then-else on the two
algebraic checks of the protocol. -/
theorem verify_eval (y1 y2 r1 r2 : Int) (s c : ℕ) :
    verify y1 y2 r1 r2 (s : Int) (c : Int) =
      if r1 = DEFAULT_PARAMS.g ^ s % DEFAULT_PARAMS.p * (y1 ^ c % DEFAULT_PARAMS.p) %
            DEFAULT_PARAMS.p ∧
         r2 = DEFAULT_PARAMS.h ^ s % DEFAULT_PARAMS.p * (y2 ^ c % DEFAULT_PARAMS.p) %
            DEFAULT_PARAMS.p
      then some CPResult.ok else some CPResult.verificationFailed := by
  have hp : DEFAULT_PARAMS.p ≠ 0 := by decide
  have hp0 : (0 : Int) ≤ DEFAULT_PARAMS.p := by decide
  have ht1 : Int.tmod
        (DEFAULT_PARAMS.g ^ s % DEFAULT_PARAMS.p * (y1 ^ c % DEFAULT_PARAMS.p))
        DEFAULT_PARAMS.p =
      DEFAULT_PARAMS.g ^ s % DEFAULT_PARAMS.p * (y1 ^ c % DEFAULT_PARAMS.p) %
        DEFAULT_PARAMS.p :=
    Int.tmod_eq_emod (mul_nonneg (Int.emod_nonneg _ hp) (Int.emod_nonneg _ hp)) hp0
  have ht2 : Int.tmod
        (DEFAULT_PARAMS.h ^ s % DEFAULT_PARAMS.p * (y2 ^ c % DEFAULT_PARAMS.p))
        DEFAULT_PARAMS.p =
      DEFAULT_PARAMS.h ^ s % DEFAULT_PARAMS.p * (y2 ^ c % DEFAULT_PARAMS.p) %
        DEFAULT_PARAMS.p :=
    Int.tmod_eq_emod (mul_nonneg (Int.emod_nonneg _ hp) (Int.emod_nonneg _ hp)) hp0
  unfold verify
  rw [modpow_natCast _ _ hp, modpow_natCast _ _ hp, modpow_natCast _ _ hp,
    modpow_natCast _ _ hp]
  dsimp only
  rw [ht1, ht2]
  by_cases h : r1 = DEFAULT_PARAMS.g ^ s % DEFAULT_PARAMS.p *
        (y1 ^ c % DEFAULT_PARAMS.p) % DEFAULT_PARAMS.p ∧
      r2 = DEFAULT_PARAMS.h ^ s % DEFAULT_PARAMS.p *
        (y2 ^ c % DEFAULT_PARAMS.p) % DEFAULT_PARAMS.p
  · rw [if_pos h, if_neg]
    push_neg
    exact ⟨h.1, h.2⟩
  · rw [if_neg h, if_pos]
    by_contra hc
    push_neg at hc
    exact h ⟨hc.1, hc.2⟩

/-! ## Association-list map lemmas -/

theorem mapGet_append {α : Type} (l1 l2 : List (String × α)) (key : String) :
    mapGet (l1 ++ l2) key =
      match mapGet l1 key with
      | some v => some v
      | none => mapGet l2 key := by
  induction l1 with
  | nil => simp [mapGet]
  | cons p rest ih =>
    obtain ⟨k, v⟩ := p
    by_cases h : key = k
    · simp [mapGet, h]
    · simp [mapGet, h, ih]

theorem mapGet_mapRemove {α : Type} (m : List (String × α)) (k key : String) :
    mapGet (mapRemove m k) key = if key = k then none else mapGet m key := by
  induction m with
  | nil => simp [mapGet, mapRemove]
  | cons p rest ih =>
    obtain ⟨k1, v⟩ := p
    by_cases h1 : k1 = k
    · rw [mapRemove, if_pos h1, ih]
      by_cases h2 : key = k
      · simp [h2]
      · rw [if_neg h2, if_neg h2, mapGet, if_neg (by rw [h1]; exact h2)]
    · rw [mapRemove, if_neg h1, mapGet]
      by_cases h2 : key = k1
      · rw [if_pos h2, if_neg (by rw [h2]; exact h1), mapGet, if_pos h2]
      · rw [if_neg h2, ih, mapGet, if_neg h2]

theorem mapGet_mapInsert {α : Type} (m : List (String × α)) (k key : String) (v : α) :
    mapGet (mapInsert m k v) key = if key = k then some v else mapGet m key := by
  unfold mapInsert
  rw [mapGet_append, mapGet_mapRemove]
  by_cases h : key = k
  · simp [h, mapGet]
  · cases hg : mapGet m key <;> simp [mapGet, h, hg]

theorem mem_mapRemove {α : Type} {p : String × α} {m : List (String × α)}
    {k : String} : p ∈ mapRemove m k ↔ p ∈ m ∧ p.1 ≠ k := by
  induction m with
  | nil => simp [mapRemove]
  | cons q rest ih =>
    obtain ⟨k1, v⟩ := q
    by_cases h1 : k1 = k
    · subst h1
      rw [mapRemove, if_pos rfl, ih]
      simp only [List.mem_cons]
      constructor
      · rintro ⟨hp, hne⟩
        exact ⟨Or.inr hp, hne⟩
      · rintro ⟨hp | hp, hne⟩
        · cases hp
          exact absurd rfl hne
        · exact ⟨hp, hne⟩
    · rw [mapRemove, if_neg h1]
      simp only [List.mem_cons, ih]
      constructor
      · rintro (hp | ⟨hp, hne⟩)
        · cases hp
          exact ⟨Or.inl rfl, h1⟩
        · exact ⟨Or.inr hp, hne⟩
      · rintro ⟨hp | hp, hne⟩
        · exact Or.inl hp
        · exact Or.inr ⟨hp, hne⟩

theorem mem_mapInsert {α : Type} {p : String × α} {m : List (String × α)}
    {k : String} {v : α} :
    p ∈ mapInsert m k v ↔ (p ∈ m ∧ p.1 ≠ k) ∨ p = (k, v) := by
  unfold mapInsert
  simp [List.mem_append, mem_mapRemove]

theorem not_mem_keys_mapRemove {α : Type} (m : List (String × α)) (k : String) :
    k ∉ (mapRemove m k).map Prod.fst := by
  intro hmem
  simp only [List.mem_map] at hmem
  obtain ⟨p, hp, hk⟩ := hmem
  exact (mem_mapRemove.mp hp).2 hk

theorem keysNodup_mapRemove {α : Type} {m : List (String × α)} (k : String)
    (h : keysNodup m) : keysNodup (mapRemove m k) := by
  induction m with
  | nil => simpa [mapRemove] using h
  | cons q rest ih =>
    obtain ⟨k1, v⟩ := q
    rw [keysNodup, List.map_cons, List.nodup_cons] at h
    by_cases h1 : k1 = k
    · rw [mapRemove, if_pos h1]
      exact ih h.2
    · rw [mapRemove, if_neg h1]
      rw [keysNodup, List.map_cons, List.nodup_cons]
      refine ⟨?_, ih h.2⟩
      intro hk1
      simp only [List.mem_map] at hk1
      obtain ⟨p, hp, hk⟩ := hk1
      have hmem : p.1 ∈ rest.map Prod.fst :=
        List.mem_map_of_mem Prod.fst (mem_mapRemove.mp hp).1
      rw [hk] at hmem
      exact h.1 hmem

theorem keysNodup_mapInsert {α : Type} {m : List (String × α)} (k : String)
    (v : α) (h : keysNodup m) : keysNodup (mapInsert m k v) := by
  unfold mapInsert keysNodup
  rw [List.map_append]
  apply List.Nodup.append
  · exact keysNodup_mapRemove k h
  · simp
  · intro a ha hb
    simp only [List.map_cons, List.map_nil, List.mem_singleton] at hb
    subst hb
    exact not_mem_keys_mapRemove m a ha

theorem mapGet_eq_some_iff_mem {α : Type} {m : List (String × α)}
    (hnd : keysNodup m) {k : String} {v : α} :
    mapGet m k = some v ↔ (k, v) ∈ m := by
  induction m with
  | nil => simp [mapGet]
  | cons q rest ih =>
    obtain ⟨k1, v1⟩ := q
    rw [keysNodup, List.map_cons, List.nodup_cons] at hnd
    by_cases h : k = k1
    · subst h
      rw [mapGet, if_pos rfl]
      simp only [List.mem_cons]
      constructor
      · intro hv
        injection hv with hv
        exact Or.inl (by rw [hv])
      · rintro (hv | hv)
        · cases hv
          rfl
        · exact absurd (List.mem_map_of_mem Prod.fst hv) hnd.1
    · rw [mapGet, if_neg h, ih hnd.2]
      simp only [List.mem_cons]
      constructor
      · exact Or.inr
      · rintro (hv | hv)
        · cases hv
          exact absurd rfl h
        · exact hv

theorem mapGet_eq_none_iff {α : Type} {m : List (String × α)} {k : String} :
    mapGet m k = none ↔ ∀ p ∈ m, p.1 ≠ k := by
  induction m with
  | nil => simp [mapGet]
  | cons q rest ih =>
    obtain ⟨k1, v1⟩ := q
    rw [mapGet]
    by_cases h : k = k1
    · subst h
      simp only [if_pos rfl]
      constructor
      · intro hv
        exact absurd hv (by simp)
      · intro hall
        exact absurd rfl (hall (k, v1) (List.mem_cons_self _ _))
    · rw [if_neg h, ih]
      constructor
      · intro hall p hp
        rcases List.mem_cons.mp hp with hp1 | hp2
        · cases hp1
          exact fun hh => h hh.symm
        · exact hall p hp2
      · intro hall p hp
        exact hall p (List.mem_cons_of_mem _ hp)

/-! ## Counting challenges owned by a user; reachable server states -/

theorem countOwned_eq_zero_iff {l : List (String × Challenge)} {u : String} :
    countOwned l u = 0 ↔ ∀ p ∈ l, p.2.user_id ≠ u := by
  induction l with
  | nil => simp [countOwned]
  | cons q rest ih =>
    obtain ⟨k, ch⟩ := q
    rw [countOwned]
    by_cases h : ch.user_id = u
    · rw [if_pos h]
      constructor
      · intro hc
        exact absurd hc (by omega)
      · intro hall
        exact absurd h (hall (k, ch) (List.mem_cons_self _ _))
    · rw [if_neg h, Nat.zero_add, ih]
      constructor
      · intro hall p hp
        rcases List.mem_cons.mp hp with h1 | h2
        · cases h1
          exact h
        · exact hall p h2
      · intro hall p hp
        exact hall p (List.mem_cons_of_mem _ hp)

theorem countOwned_le_one {l : List (String × Challenge)} {u : String}
    (hnd : keysNodup l)
    (huniq : ∀ p q : String × Challenge, p ∈ l → q ∈ l →
      p.2.user_id = u → q.2.user_id = u → p.1 = q.1) :
    countOwned l u ≤ 1 := by
  induction l with
  | nil => simp [countOwned]
  | cons a rest ih =>
    obtain ⟨k, ch⟩ := a
    rw [keysNodup, List.map_cons, List.nodup_cons] at hnd
    rw [countOwned]
    by_cases h : ch.user_id = u
    · rw [if_pos h]
      have hz : countOwned rest u = 0 := by
        rw [countOwned_eq_zero_iff]
        intro p hp hpu
        have hk : p.1 = k := huniq p (k, ch) (List.mem_cons_of_mem _ hp)
          (List.mem_cons_self _ _) hpu h
        have hmem : p.1 ∈ rest.map Prod.fst := List.mem_map_of_mem Prod.fst hp
        rw [hk] at hmem
        exact hnd.1 hmem
      omega
    · rw [if_neg h, Nat.zero_add]
      exact ih hnd.2 (fun p q hp hq hpu hqu =>
        huniq p q (List.mem_cons_of_mem _ hp) (List.mem_cons_of_mem _ hq) hpu hqu)

theorem challengeInv_of_reachableSR {st : PedersenChaumAuthServerState}
    (h : ReachableSR st) : ChallengeInv st := by
  induction h with
  | empty => exact ⟨List.nodup_nil, by simp [emptyState]⟩
  | register st u y1 y2 h hnoch ih =>
    obtain ⟨hnd, hinv⟩ := ih
    refine ⟨hnd, ?_⟩
    intro p hp
    simp only [register_user] at hp ⊢
    obtain ⟨usr, husr, hauth⟩ := hinv p hp
    have hne : p.2.user_id ≠ u := (countOwned_eq_zero_iff.mp hnoch) p hp
    refine ⟨usr, ?_, hauth⟩
    rw [mapGet_mapInsert, if_neg hne]
    exact husr
  | challenge st u auth_id r1 r2 c h hfresh ih =>
    obtain ⟨hnd, hinv⟩ := ih
    cases hu : mapGet st.users u with
    | none =>
      have hst : (create_authentication_challenge st u auth_id r1 r2 c).2 = st := by
        simp [create_authentication_challenge, hu]
      rw [hst]
      exact ⟨hnd, hinv⟩
    | some user_data =>
      cases ha : user_data.auth_id with
      | some old =>
        have hst : (create_authentication_challenge st u auth_id r1 r2 c).2 =
            { st with
              users := mapInsert st.users u { user_data with auth_id := some auth_id },
              challenges := mapInsert (mapRemove st.challenges old) auth_id
                { id := auth_id, c := c, r1 := r1, r2 := r2, user_id := u } } := by
          simp [create_authentication_challenge, hu, ha]
        rw [hst]
        constructor
        · exact keysNodup_mapInsert _ _ (keysNodup_mapRemove _ hnd)
        · intro p hp
          rcases mem_mapInsert.mp hp with ⟨hp1, hpne⟩ | hpnew
          · obtain ⟨hpold, hpnold⟩ := mem_mapRemove.mp hp1
            obtain ⟨usr, husr, hauth⟩ := hinv p hpold
            have hne : p.2.user_id ≠ u := by
              intro heq
              rw [heq, hu] at husr
              injection husr with husr
              rw [husr] at ha
              rw [ha] at hauth
              injection hauth with hauth
              exact hpnold hauth.symm
            refine ⟨usr, ?_, hauth⟩
            dsimp only
            rw [mapGet_mapInsert, if_neg hne]
            exact husr
          · subst hpnew
            refine ⟨{ user_data with auth_id := some auth_id }, ?_, rfl⟩
            dsimp only
            rw [mapGet_mapInsert, if_pos rfl]
      | none =>
        have hst : (create_authentication_challenge st u auth_id r1 r2 c).2 =
            { st with
              users := mapInsert st.users u { user_data with auth_id := some auth_id },
              challenges := mapInsert st.challenges auth_id
                { id := auth_id, c := c, r1 := r1, r2 := r2, user_id := u } } := by
          simp [create_authentication_challenge, hu, ha]
        rw [hst]
        constructor
        · exact keysNodup_mapInsert _ _ hnd
        · intro p hp
          rcases mem_mapInsert.mp hp with ⟨hp1, hpne⟩ | hpnew
          · obtain ⟨usr, husr, hauth⟩ := hinv p hp1
            have hne : p.2.user_id ≠ u := by
              intro heq
              rw [heq, hu] at husr
              injection husr with husr
              rw [husr] at ha
              rw [ha] at hauth
              exact Option.noConfusion hauth
            refine ⟨usr, ?_, hauth⟩
            dsimp only
            rw [mapGet_mapInsert, if_neg hne]
            exact husr
          · subst hpnew
            refine ⟨{ user_data with auth_id := some auth_id }, ?_, rfl⟩
            dsimp only
            rw [mapGet_mapInsert, if_pos rfl]
  | session st u session_id h ih =>
    obtain ⟨hnd, hinv⟩ := ih
    cases hu : mapGet st.users u with
    | none =>
      have hst : (create_session st u session_id).2 = st := by
        simp [create_session, hu]
      rw [hst]
      exact ⟨hnd, hinv⟩
    | some user =>
      have hst : (create_session st u session_id).2 =
          { st with
            users := mapInsert st.users u { user with session_id := some session_id },
            sessions := mapInsert st.sessions session_id
              { id := session_id, user_id := u } } := by
        simp [create_session, hu]
      rw [hst]
      refine ⟨hnd, ?_⟩
      intro p hp
      obtain ⟨usr, husr, hauth⟩ := hinv p hp
      by_cases hne : p.2.user_id = u
      · refine ⟨{ user with session_id := some session_id }, ?_, ?_⟩
        · dsimp only
          rw [hne, mapGet_mapInsert, if_pos rfl]
        · rw [hne, hu] at husr
          injection husr with husr
          rw [← husr] at hauth
          exact hauth
      · refine ⟨usr, ?_, hauth⟩
        dsimp only
        rw [mapGet_mapInsert, if_neg hne]
        exact husr

/-! ## Projections of the default parameters -/

theorem dp_g : DEFAULT_PARAMS.g = (G : Int) := rfl

theorem dp_h : DEFAULT_PARAMS.h = (H : Int) := rfl

theorem dp_p : DEFAULT_PARAMS.p = (P : Int) := rfl

theorem dp_q : DEFAULT_PARAMS.q = (Q : Int) := rfl

/-! # The claims -/

/-- Claim C6 (confirmed). Response normalization: for all integers `x`, `k`, `c`,
`solve_challenge x k c` returns the unique integer `s` with `0 ≤ s < q` that is
congruent to `k - c*x` modulo the subgroup order `q` (not the modulus `p`). -/
theorem solve_challenge_normalization (x k c : Int) :
    0 ≤ solve_challenge x k c ∧ solve_challenge x k c < (Q : Int) ∧
    Int.ModEq (Q : Int) (solve_challenge x k c) (k - c * x) ∧
    ∀ t : Int, 0 ≤ t → t < (Q : Int) → Int.ModEq (Q : Int) t (k - c * x) →
      t = solve_challenge x k c := by
  rw [solve_challenge_eq_emod]
  have hq : (0 : Int) < (Q : Int) := by exact_mod_cast Q_pos
  refine ⟨Int.emod_nonneg _ (ne_of_gt hq), Int.emod_lt_of_pos _ hq, ?_, ?_⟩
  · exact Int.emod_emod_of_dvd _ dvd_rfl
  · intro t ht0 htq htm
    have htm' : t % (Q : Int) = (k - c * x) % (Q : Int) := htm
    rw [← htm']
    exact (Int.emod_eq_of_lt ht0 htq).symm

/-- Witness for C6 at `x = 1`, `k = 2`, `c = 3`: the uniqueness clause applied
to the concrete representative `q - 1` of `2 - 3*1 = -1`. -/
theorem solve_challenge_normalization_witness :
    (0 : Int) ≤ (Q : Int) - 1 ∧ (Q : Int) - 1 < (Q : Int) ∧
    (Q : Int) - 1 = solve_challenge 1 2 3 :=
  ⟨by decide, by decide,
    (solve_challenge_normalization 1 2 3).2.2.2 ((Q : Int) - 1) (by decide)
      (by decide) (by decide)⟩

/-- Claim C5 (confirmed). Verification predicate: for all group-element inputs
and non-negative `s`, `c`, `verify` returns success iff both
`r1 = g^s * y1^c mod p` and `r2 = h^s * y2^c mod p` hold, and returns the
reported `VerificationFailed` error iff one of them fails. -/
theorem verify_iff_characterization (y1 y2 r1 r2 : Int) (s c : ℕ) :
    (verify y1 y2 r1 r2 (s : Int) (c : Int) = some CPResult.ok ↔
      r1 = DEFAULT_PARAMS.g ^ s * y1 ^ c % DEFAULT_PARAMS.p ∧
      r2 = DEFAULT_PARAMS.h ^ s * y2 ^ c % DEFAULT_PARAMS.p) ∧
    (verify y1 y2 r1 r2 (s : Int) (c : Int) = some CPResult.verificationFailed ↔
      ¬(r1 = DEFAULT_PARAMS.g ^ s * y1 ^ c % DEFAULT_PARAMS.p ∧
        r2 = DEFAULT_PARAMS.h ^ s * y2 ^ c % DEFAULT_PARAMS.p)) := by
  rw [verify_eval]
  have e1 : DEFAULT_PARAMS.g ^ s % DEFAULT_PARAMS.p * (y1 ^ c % DEFAULT_PARAMS.p) %
      DEFAULT_PARAMS.p = DEFAULT_PARAMS.g ^ s * y1 ^ c % DEFAULT_PARAMS.p :=
    (Int.mul_emod _ _ _).symm
  have e2 : DEFAULT_PARAMS.h ^ s % DEFAULT_PARAMS.p * (y2 ^ c % DEFAULT_PARAMS.p) %
      DEFAULT_PARAMS.p = DEFAULT_PARAMS.h ^ s * y2 ^ c % DEFAULT_PARAMS.p :=
    (Int.mul_emod _ _ _).symm
  rw [e1, e2]
  by_cases hcond : r1 = DEFAULT_PARAMS.g ^ s * y1 ^ c % DEFAULT_PARAMS.p ∧
      r2 = DEFAULT_PARAMS.h ^ s * y2 ^ c % DEFAULT_PARAMS.p
  · rw [if_pos hcond]
    simp [hcond]
  · rw [if_neg hcond]
    simp [hcond]

/-- Claim C9 counterexample: at the negative response `s = -1`, `verify` hits the
panic of `BigInt::modpow` on a negative exponent (modelled as `none`), so as
stated — for *all* big-integer inputs — the totality claim fails. -/
theorem verify_totality_counterexample : verify 0 0 0 0 (-1) 0 = none := by
  decide

/-- Claim C9 (amended). Verification totality on the wire-representable domain:
for all `y1 y2 r1 r2` and all *non-negative* `s`, `c`, `verify` terminates and
returns either success or the reported `VerificationFailed` error. -/
theorem verify_total_on_nonneg (y1 y2 r1 r2 : Int) (s c : ℕ) :
    verify y1 y2 r1 r2 (s : Int) (c : Int) = some CPResult.ok ∨
    verify y1 y2 r1 r2 (s : Int) (c : Int) = some CPResult.verificationFailed := by
  rw [verify_eval]
  by_cases h : r1 = DEFAULT_PARAMS.g ^ s % DEFAULT_PARAMS.p *
        (y1 ^ c % DEFAULT_PARAMS.p) % DEFAULT_PARAMS.p ∧
      r2 = DEFAULT_PARAMS.h ^ s % DEFAULT_PARAMS.p *
        (y2 ^ c % DEFAULT_PARAMS.p) % DEFAULT_PARAMS.p
  · left
    rw [if_pos h]
  · right
    rw [if_neg h]

/-- The response exponent together with `x*c` reproduces `k` modulo `Q`. -/
theorem solve_exponent_modEq (x k c : ℕ) {sn : ℕ}
    (hsn : (sn : Int) = solve_challenge (x : Int) (k : Int) (c : Int)) :
    sn + x * c ≡ k [MOD Q] := by
  have hsneq : (sn : Int) = ((k : Int) - (c : Int) * (x : Int)) % (Q : Int) := by
    rw [hsn, solve_challenge_eq_emod]
  apply Nat.modEq_iff_dvd.mpr
  push_cast
  rw [hsneq]
  have h2 : (k : Int) - (((k : Int) - (c : Int) * (x : Int)) % (Q : Int) +
      (x : Int) * (c : Int)) =
      ((k : Int) - (c : Int) * (x : Int)) -
        ((k : Int) - (c : Int) * (x : Int)) % (Q : Int) := by ring
  rw [h2]
  exact Int.dvd_sub_of_emod_eq rfl

/-- An honestly computed response always passes `verify` (shared between the
completeness claim and the end-to-end server scenarios). -/
theorem verify_honest (x k c : ℕ) :
    verify ((G : Int) ^ x % (P : Int)) ((H : Int) ^ x % (P : Int))
      ((G : Int) ^ k % (P : Int)) ((H : Int) ^ k % (P : Int))
      (solve_challenge (x : Int) (k : Int) (c : Int)) (c : Int) =
      some CPResult.ok := by
  have hs0 : 0 ≤ solve_challenge (x : Int) (k : Int) (c : Int) :=
    solve_challenge_nonneg _ _ _
  obtain ⟨sn, hsn⟩ : ∃ n : ℕ, (n : Int) = solve_challenge (x : Int) (k : Int) (c : Int) :=
    ⟨(solve_challenge (x : Int) (k : Int) (c : Int)).toNat, Int.toNat_of_nonneg hs0⟩
  have hmodeq := solve_exponent_modEq x k c hsn
  rw [← hsn, verify_eval]
  rw [if_pos]
  constructor
  · rw [dp_g, dp_p]
    have hnat := pow_check_core G_pow_Q_mod_P hmodeq
    exact_mod_cast hnat.symm
  · rw [dp_h, dp_p]
    have hnat := pow_check_core H_pow_Q_mod_P hmodeq
    exact_mod_cast hnat.symm

/-- Evaluation of `commit` on a non-negative ephemeral `k` returns the two honest
commitment values. -/
theorem commit_natCast (k : ℕ) :
    commit (k : Int) =
      some ((G : Int) ^ k % (P : Int), (H : Int) ^ k % (P : Int)) := by
  have hp : DEFAULT_PARAMS.p ≠ 0 := by decide
  unfold commit
  rw [modpow_natCast _ _ hp, modpow_natCast _ _ hp]
  rfl

/-- Claim C1 (confirmed). Completeness of the honest round-trip: for the fixed
parameters and every non-negative secret `x`, ephemeral `k` and challenge `c`,
if `y1 = g^x mod p`, `y2 = h^x mod p`, `(r1, r2) = commit k` and
`s = solve_challenge x k c`, then `verify y1 y2 r1 r2 s c` succeeds. -/
theorem protocol_completeness (x k c : ℕ) (r1 r2 : Int)
    (hcommit : commit (k : Int) = some (r1, r2)) :
    verify ((G : Int) ^ x % (P : Int)) ((H : Int) ^ x % (P : Int)) r1 r2
      (solve_challenge (x : Int) (k : Int) (c : Int)) (c : Int) =
      some CPResult.ok := by
  rw [commit_natCast] at hcommit
  injection hcommit with hpair
  injection hpair with hr1 hr2
  subst hr1
  subst hr2
  exact verify_honest x k c

/-- Witness for C1 at `x = 2`, `k = 5`, `c = 3`. -/
theorem protocol_completeness_witness :
    commit (5 : Int) = some (1024, 59049) ∧
    verify ((G : Int) ^ 2 % (P : Int)) ((H : Int) ^ 2 % (P : Int)) 1024 59049
      (solve_challenge (2 : Int) (5 : Int) (3 : Int)) (3 : Int) =
      some CPResult.ok :=
  ⟨by decide, protocol_completeness 2 5 3 1024 59049 (by decide)⟩

/-- Claim C2 counterexample: the secrets `x = 0` and `x' = 1` are distinct, the
response is computed from the wrong secret `x' = 1`, yet with challenge
`c = 0` verification *succeeds* instead of failing. -/
theorem soundness_counterexample :
    (0 : Int) ≠ 1 ∧
    commit (0 : Int) = some (1, 1) ∧
    verify ((G : Int) ^ (0 : ℕ) % (P : Int)) ((H : Int) ^ (0 : ℕ) % (P : Int))
      1 1 (solve_challenge (1 : Int) (0 : Int) (0 : Int)) (0 : Int) =
      some CPResult.ok := by
  refine ⟨by decide, by decide, by decide⟩

/-- From an integer-level success of the `r1` check, the exponents collapse in
`ZMod P`. -/
theorem check_to_zmod {g : ℕ} {sn x c k : ℕ}
    (h : g ^ k % P = g ^ sn % P * ((g ^ x % P) ^ c % P) % P) :
    (g : ZMod P) ^ k = (g : ZMod P) ^ (sn + x * c) := by
  have hc := (ZMod.natCast_eq_natCast_iff' (g ^ k)
    (g ^ sn % P * ((g ^ x % P) ^ c % P)) P).mpr h
  push_cast [ZMod.natCast_mod] at hc
  rw [← pow_mul, ← pow_add] at hc
  exact hc

theorem isUnit_G_zmod : IsUnit (G : ZMod P) := by
  apply isUnit_of_mul_eq_one _ ((G : ZMod P) ^ (Q - 1))
  have hq : Q - 1 + 1 = Q := by
    have := Q_pos
    omega
  rw [← pow_succ', hq]
  exact zmod_pow_Q_eq_one G_pow_Q_mod_P

/-- Claim C2 (amended). Soundness against a wrong secret, under the necessary
non-degeneracy condition: if the two secrets produce different `g`-powers at
this challenge — `g^(x*c) ≢ g^(x'*c) (mod p)`, which in particular requires
`c ≠ 0` and `x ≢ x' (mod q)` — then the response computed from `x'` fails
verification against the commitments of `x`. -/
theorem soundness_for_distinct_secrets (x x' k c : ℕ) (r1 r2 : Int)
    (hcommit : commit (k : Int) = some (r1, r2))
    (hd : G ^ (x * c) % P ≠ G ^ (x' * c) % P) :
    verify ((G : Int) ^ x % (P : Int)) ((H : Int) ^ x % (P : Int)) r1 r2
      (solve_challenge (x' : Int) (k : Int) (c : Int)) (c : Int) =
      some CPResult.verificationFailed := by
  rw [commit_natCast] at hcommit
  injection hcommit with hpair
  injection hpair with hr1 hr2
  subst hr1
  subst hr2
  have hdz : (G : ZMod P) ^ (x * c) ≠ (G : ZMod P) ^ (x' * c) := by
    intro heq
    apply hd
    apply (ZMod.natCast_eq_natCast_iff' (G ^ (x * c)) (G ^ (x' * c)) P).mp
    push_cast
    exact heq
  have hs0 : 0 ≤ solve_challenge (x' : Int) (k : Int) (c : Int) :=
    solve_challenge_nonneg _ _ _
  obtain ⟨sn, hsn⟩ : ∃ n : ℕ, (n : Int) = solve_challenge (x' : Int) (k : Int) (c : Int) :=
    ⟨(solve_challenge (x' : Int) (k : Int) (c : Int)).toNat, Int.toNat_of_nonneg hs0⟩
  have hmodeq := solve_exponent_modEq x' k c hsn
  rw [← hsn, verify_eval, if_neg]
  intro hcond
  obtain ⟨h1, _⟩ := hcond
  rw [dp_g, dp_p] at h1
  have h1n : G ^ k % P = G ^ sn % P * ((G ^ x % P) ^ c % P) % P := by
    exact_mod_cast h1
  have hZ1 := check_to_zmod h1n
  have hZ2 := check_to_zmod (pow_check_core G_pow_Q_mod_P hmodeq).symm
  have hx : (G : ZMod P) ^ sn * (G : ZMod P) ^ (x * c) =
      (G : ZMod P) ^ sn * (G : ZMod P) ^ (x' * c) := by
    rw [← pow_add, ← pow_add]
    exact hZ1.symm.trans hZ2
  exact hdz ((isUnit_G_zmod.pow sn).mul_left_cancel hx)

/-- Witness for the amended C2 at `x = 2`, `x' = 1`, `k = 5`, `c = 1`. -/
theorem soundness_for_distinct_secrets_witness :
    commit (5 : Int) = some (1024, 59049) ∧
    G ^ (2 * 1) % P ≠ G ^ (1 * 1) % P ∧
    verify ((G : Int) ^ 2 % (P : Int)) ((H : Int) ^ 2 % (P : Int)) 1024 59049
      (solve_challenge (1 : Int) (5 : Int) (1 : Int)) (1 : Int) =
      some CPResult.verificationFailed :=
  ⟨by decide, by decide,
    soundness_for_distinct_secrets 2 1 5 1 1024 59049 (by decide) (by decide)⟩

/-! ## Singleton-map evaluation helpers -/

theorem mapGet_singleton {α : Type} (k : String) (v : α) :
    mapGet [(k, v)] k = some v := by
  rw [mapGet, if_pos rfl]

theorem mapRemove_singleton {α : Type} (k : String) (v : α) :
    mapRemove [(k, v)] k = [] := by
  rw [mapRemove, if_pos rfl]
  rfl

theorem mapInsert_singleton {α : Type} (k : String) (v v' : α) :
    mapInsert [(k, v)] k v' = [(k, v')] := by
  unfold mapInsert
  rw [mapRemove_singleton]
  rfl

/-- Evaluation of a fresh register-then-challenge run from the empty state. -/
theorem run_register_challenge (u aid : String) (y1 y2 r1 r2 c : Int) :
    (create_authentication_challenge (register_user emptyState u y1 y2)
        u aid r1 r2 c).2 =
      { users := [(u, ⟨u, y1, y2, some aid, none⟩)],
        challenges := [(aid, ⟨aid, c, r1, r2, u⟩)],
        sessions := [] } := by
  have e1 : register_user emptyState u y1 y2 =
      { users := [(u, ⟨u, y1, y2, none, none⟩)], challenges := [],
        sessions := [] } := rfl
  rw [e1]
  unfold create_authentication_challenge
  rw [mapGet_singleton]
  dsimp only
  rw [mapInsert_singleton]
  rfl

/-! ## C4: single-challenge invariant -/

/-- Claim C4 counterexample: a state is reachable from the empty state by
`register_user` and `create_authentication_challenge` (with fresh challenge
ids) in which the user `"u"` owns *two* entries of the challenge registry:
re-registration clears `auth_id`, so the store loses track of challenge `"A"`
and does not reap it when `"B"` is issued. -/
theorem single_challenge_counterexample :
    Reachable c4StateD ∧ countOwned c4StateD.challenges "u" = 2 :=
  ⟨Reachable.challenge c4StateC "u" "B" 1 2 3
      (Reachable.register c4StateB "u" 1 2
        (Reachable.challenge c4StateA "u" "A" 1 2 3
          (Reachable.register emptyState "u" 1 2 Reachable.empty)
          (by decide)))
      (by decide),
    by decide⟩

/-- Claim C4 (amended). Single-challenge invariant: in every state reachable from
the empty state by `register_user` (applied only to users with no live
challenge entry), `create_authentication_challenge` (with fresh challenge ids)
and `create_session`, each user identifier owns at most one entry of the
challenge registry. -/
theorem single_challenge_invariant {st : PedersenChaumAuthServerState}
    (h : ReachableSR st) (u : String) : countOwned st.challenges u ≤ 1 := by
  obtain ⟨hnd, hinv⟩ := challengeInv_of_reachableSR h
  apply countOwned_le_one hnd
  intro p q hp hq hpu hqu
  obtain ⟨usr1, h1, ha1⟩ := hinv p hp
  obtain ⟨usr2, h2, ha2⟩ := hinv q hq
  rw [hpu] at h1
  rw [hqu] at h2
  rw [h1] at h2
  injection h2 with h2
  rw [h2] at ha1
  rw [ha1] at ha2
  exact Option.some.inj ha2

/-- Witness for the amended C4 on a concrete two-step run. -/
theorem single_challenge_invariant_witness :
    countOwned (create_authentication_challenge
      (register_user emptyState "alice" 4 9) "alice" "ch1" 16 81 1).2.challenges
      "alice" ≤ 1 :=
  single_challenge_invariant
    (ReachableSR.challenge (register_user emptyState "alice" 4 9) "alice" "ch1"
      16 81 1
      (ReachableSR.register emptyState "alice" 4 9 ReachableSR.empty (by decide))
      (by decide))
    "alice"

/-! ## C7: never-registered users -/

/-- Claim C7 (confirmed). Registration precondition and failure atomicity: for a
user identifier with no registration, `CreateChallenge` fails with
`UserNotFound`, and `VerifyAnswer` on any challenge id whose entry names that
user fails with `UserNotFound`; in both cases the returned state is exactly
the input state, so no entry appears in any of the three registries. (A
challenge id with no entry at all instead fails earlier with
`ChallengeNotFound`, before any user lookup.) -/
theorem unregistered_user_errors (st : PedersenChaumAuthServerState)
    (u : String) (hu : mapGet st.users u = none) :
    (∀ (aid : String) (r1 r2 c : Int),
      create_authentication_challenge st u aid r1 r2 c =
        (Except.error AuthError.userNotFound, st)) ∧
    (∀ (cid : String) (ch : Challenge) (s : Int) (sid : String),
      mapGet st.challenges cid = some ch → ch.user_id = u →
      verify_authentication st cid s sid =
        some (Except.error AuthError.userNotFound, st)) := by
  constructor
  · intro aid r1 r2 c
    simp [create_authentication_challenge, hu]
  · intro cid ch s sid hch hcu
    simp [verify_authentication, hch, hcu, hu]

/-- Witness for C7 on `c7State`. -/
theorem unregistered_user_errors_witness :
    create_authentication_challenge c7State "bob" "a1" 1 2 3 =
      (Except.error AuthError.userNotFound, c7State) ∧
    verify_authentication c7State "c1" 0 "s1" =
      some (Except.error AuthError.userNotFound, c7State) :=
  ⟨(unregistered_user_errors c7State "bob" (by rfl)).1 "a1" 1 2 3,
   (unregistered_user_errors c7State "bob" (by rfl)).2 "c1"
     ⟨"c1", 0, 0, 0, "bob"⟩ 0 "s1" (by rfl) rfl⟩

/-! ## C8: challenge supersession -/

/-- Claim C8 (confirmed). Challenge supersession: registering a user and issuing
two challenges `aid1` then `aid2` in sequence leaves exactly one entry in the
challenge registry — the second — the user's `auth_id` equals `aid2`, and a
subsequent `VerifyAnswer` with the stale `aid1` fails with `ChallengeNotFound`
while leaving the state unchanged. -/
theorem challenge_supersession (u : String) (y1 y2 : Int) (aid1 aid2 : String)
    (r1 r2 c r1' r2' c' s : Int) (sid : String) (hne : aid1 ≠ aid2)
    (st3 : PedersenChaumAuthServerState)
    (hst3 : st3 = (create_authentication_challenge
      (create_authentication_challenge (register_user emptyState u y1 y2)
        u aid1 r1 r2 c).2 u aid2 r1' r2' c').2) :
    st3.challenges = [(aid2, ⟨aid2, c', r1', r2', u⟩)] ∧
    (mapGet st3.users u).map User.auth_id = some (some aid2) ∧
    verify_authentication st3 aid1 s sid =
      some (Except.error AuthError.challengeNotFound, st3) := by
  rw [run_register_challenge] at hst3
  have e3 : create_authentication_challenge
      { users := [(u, ⟨u, y1, y2, some aid1, none⟩)],
        challenges := [(aid1, ⟨aid1, c, r1, r2, u⟩)], sessions := [] }
      u aid2 r1' r2' c' =
      (Except.ok (),
        { users := [(u, ⟨u, y1, y2, some aid2, none⟩)],
          challenges := [(aid2, ⟨aid2, c', r1', r2', u⟩)],
          sessions := [] }) := by
    unfold create_authentication_challenge
    rw [mapGet_singleton]
    dsimp only
    rw [mapRemove_singleton, mapInsert_singleton]
    rfl
  rw [e3] at hst3
  subst hst3
  refine ⟨rfl, ?_, ?_⟩
  · rw [mapGet_singleton]
    rfl
  · unfold verify_authentication
    dsimp only
    simp only [mapGet]
    rw [if_neg hne]

/-- Witness for C8 on a concrete run with challenge ids `"A"` then `"B"`. -/
theorem challenge_supersession_witness :
    ((create_authentication_challenge
        (create_authentication_challenge (register_user emptyState "alice" 4 9)
          "alice" "A" 16 81 1).2 "alice" "B" 16 81 2).2.challenges =
      [("B", ⟨"B", 2, 16, 81, "alice"⟩)]) ∧
    ((mapGet (create_authentication_challenge
        (create_authentication_challenge (register_user emptyState "alice" 4 9)
          "alice" "A" 16 81 1).2 "alice" "B" 16 81 2).2.users "alice").map
        User.auth_id = some (some "B")) ∧
    verify_authentication (create_authentication_challenge
        (create_authentication_challenge (register_user emptyState "alice" 4 9)
          "alice" "A" 16 81 1).2 "alice" "B" 16 81 2).2 "A" 1 "sid" =
      some (Except.error AuthError.challengeNotFound,
        (create_authentication_challenge
          (create_authentication_challenge (register_user emptyState "alice" 4 9)
            "alice" "A" 16 81 1).2 "alice" "B" 16 81 2).2) :=
  challenge_supersession "alice" 4 9 "A" "B" 16 81 1 16 81 2 1 "sid"
    (by decide) _ rfl

/-! ## C10: frame effect of registration -/

/-- Claim C10 (confirmed). Frame effect of registration: `register_user` always
succeeds and modifies only the users registry — challenges and sessions are
untouched. In particular, re-registering a user with a pending challenge
clears the user's `auth_id` but leaves the old challenge entry in place, and a
`VerifyAnswer` against that entry still succeeds when the response matches the
*newly* registered commitments. -/
theorem register_user_frame_effect :
    (∀ (st : PedersenChaumAuthServerState) (u : String) (y1 y2 : Int),
      (register_user st u y1 y2).challenges = st.challenges ∧
      (register_user st u y1 y2).sessions = st.sessions) ∧
    (∀ (u aid sid : String) (y1 y2 : Int) (x' k c : ℕ)
      (st3 : PedersenChaumAuthServerState),
      st3 = register_user
        (create_authentication_challenge (register_user emptyState u y1 y2)
          u aid ((G : Int) ^ k % (P : Int)) ((H : Int) ^ k % (P : Int))
          (c : Int)).2 u ((G : Int) ^ x' % (P : Int))
        ((H : Int) ^ x' % (P : Int)) →
      st3.challenges = [(aid, ⟨aid, (c : Int), (G : Int) ^ k % (P : Int),
        (H : Int) ^ k % (P : Int), u⟩)] ∧
      (mapGet st3.users u).map User.auth_id = some none ∧
      (verify_authentication st3 aid
          (solve_challenge (x' : Int) (k : Int) (c : Int)) sid).map Prod.fst =
        some (Except.ok sid)) := by
  constructor
  · intro st u y1 y2
    exact ⟨rfl, rfl⟩
  · intro u aid sid y1 y2 x' k c st3 hst3
    rw [run_register_challenge] at hst3
    have e4 : register_user
        { users := [(u, ⟨u, y1, y2, some aid, none⟩)],
          challenges := [(aid, ⟨aid, (c : Int), (G : Int) ^ k % (P : Int),
            (H : Int) ^ k % (P : Int), u⟩)], sessions := [] }
        u ((G : Int) ^ x' % (P : Int)) ((H : Int) ^ x' % (P : Int)) =
        { users := [(u, ⟨u, (G : Int) ^ x' % (P : Int),
            (H : Int) ^ x' % (P : Int), none, none⟩)],
          challenges := [(aid, ⟨aid, (c : Int), (G : Int) ^ k % (P : Int),
            (H : Int) ^ k % (P : Int), u⟩)], sessions := [] } := by
      unfold register_user
      dsimp only
      rw [mapInsert_singleton]
    rw [e4] at hst3
    subst hst3
    refine ⟨rfl, ?_, ?_⟩
    · rw [mapGet_singleton]
      rfl
    · unfold verify_authentication
      dsimp only
      rw [mapGet_singleton]
      dsimp only
      rw [mapGet_singleton]
      dsimp only
      rw [verify_honest x' k c]
      unfold create_session
      dsimp only
      rw [mapGet_singleton]
      rfl

/-- Witness for C10 at `x' = 2`, `k = 5`, `c = 3`, user `"alice"`. -/
theorem register_user_frame_effect_witness :
    ((register_user emptyState "zed" 1 2).challenges = emptyState.challenges ∧
     (register_user emptyState "zed" 1 2).sessions = emptyState.sessions) ∧
    ((register_user
        (create_authentication_challenge (register_user emptyState "alice" 4 9)
          "alice" "A" ((G : Int) ^ (5 : ℕ) % (P : Int))
          ((H : Int) ^ (5 : ℕ) % (P : Int)) ((3 : ℕ) : Int)).2 "alice"
        ((G : Int) ^ (2 : ℕ) % (P : Int))
        ((H : Int) ^ (2 : ℕ) % (P : Int))).challenges =
      [("A", ⟨"A", ((3 : ℕ) : Int), (G : Int) ^ (5 : ℕ) % (P : Int),
        (H : Int) ^ (5 : ℕ) % (P : Int), "alice"⟩)] ∧
     (mapGet (register_user
        (create_authentication_challenge (register_user emptyState "alice" 4 9)
          "alice" "A" ((G : Int) ^ (5 : ℕ) % (P : Int))
          ((H : Int) ^ (5 : ℕ) % (P : Int)) ((3 : ℕ) : Int)).2 "alice"
        ((G : Int) ^ (2 : ℕ) % (P : Int))
        ((H : Int) ^ (2 : ℕ) % (P : Int))).users "alice").map User.auth_id =
      some none ∧
     (verify_authentication (register_user
        (create_authentication_challenge (register_user emptyState "alice" 4 9)
          "alice" "A" ((G : Int) ^ (5 : ℕ) % (P : Int))
          ((H : Int) ^ (5 : ℕ) % (P : Int)) ((3 : ℕ) : Int)).2 "alice"
        ((G : Int) ^ (2 : ℕ) % (P : Int))
        ((H : Int) ^ (2 : ℕ) % (P : Int))) "A"
        (solve_challenge ((2 : ℕ) : Int) ((5 : ℕ) : Int) ((3 : ℕ) : Int))
        "sid").map Prod.fst = some (Except.ok "sid")) :=
  ⟨register_user_frame_effect.1 emptyState "zed" 1 2,
   register_user_frame_effect.2 "alice" "A" "sid" 4 9 2 5 3 _ rfl⟩

/-! ## C3: challenge consumption -/

/-- Claim C3 counterexample: the first `VerifyAnswer` on `"ch1"` succeeds and
returns a session, yet a second `VerifyAnswer` with the same challenge id
succeeds again with a fresh session instead of failing with
`ChallengeNotFound` — `create_session` never removes the satisfied
challenge. -/
theorem challenge_consumption_counterexample :
    (verify_authentication c3State1 "ch1" 1 "sess1").map Prod.fst =
      some (Except.ok "sess1") ∧
    (verify_authentication c3State2 "ch1" 1 "sess2").map Prod.fst =
      some (Except.ok "sess2") ∧
    (verify_authentication c3State2 "ch1" 1 "sess2").map Prod.fst ≠
      some (Except.error AuthError.challengeNotFound) := by
  refine ⟨rfl, rfl, ?_⟩
  intro hcontra
  have h0 : (verify_authentication c3State2 "ch1" 1 "sess2").map Prod.fst =
      some (Except.ok "sess2") := rfl
  rw [h0] at hcontra
  injection hcontra with hcontra
  exact Except.noConfusion hcontra

/-- Claim C3 (amended). Challenge persistence: a successful `VerifyAnswer` does
not consume the challenge — the challenge entry is unchanged, and a second
`VerifyAnswer` with the same challenge id and the same response succeeds
again, returning the new session id. (`ChallengeNotFound` arises only once
the challenge is superseded by a later `CreateChallenge`.) -/
theorem verify_answer_repeatable (st st' : PedersenChaumAuthServerState)
    (aid sid sid2 : String) (s : Int)
    (h : verify_authentication st aid s sid = some (Except.ok sid, st')) :
    mapGet st'.challenges aid = mapGet st.challenges aid ∧
    (verify_authentication st' aid s sid2).map Prod.fst =
      some (Except.ok sid2) := by
  unfold verify_authentication at h
  cases hch : mapGet st.challenges aid with
  | none =>
    rw [hch] at h
    dsimp only at h
    injection h with h
    injection h with h1 h2
    exact Except.noConfusion h1
  | some ch =>
    rw [hch] at h
    dsimp only at h
    cases hu : mapGet st.users ch.user_id with
    | none =>
      rw [hu] at h
      dsimp only at h
      injection h with h
      injection h with h1 h2
      exact Except.noConfusion h1
    | some user =>
      rw [hu] at h
      dsimp only at h
      cases hv : verify user.y1 user.y2 ch.r1 ch.r2 s ch.c with
      | none =>
        rw [hv] at h
        dsimp only at h
        exact Option.noConfusion h
      | some res =>
        rw [hv] at h
        cases res with
        | verificationFailed =>
          dsimp only at h
          injection h with h
          injection h with h1 h2
          exact Except.noConfusion h1
        | ok =>
          dsimp only at h
          unfold create_session at h
          cases hu2 : mapGet st.users user.id with
          | none =>
            rw [hu2] at h
            dsimp only at h
            injection h with h
            injection h with h1 h2
            exact Except.noConfusion h1
          | some user2 =>
            rw [hu2] at h
            dsimp only at h
            injection h with h
            injection h with h1 h2
            have hst' : st' = { st with
                users := mapInsert st.users user.id
                  { user2 with session_id := some sid },
                sessions := mapInsert st.sessions sid ⟨sid, user.id⟩ } :=
              h2.symm
            constructor
            · rw [hst']
              exact hch
            · rw [hst']
              unfold verify_authentication
              dsimp only
              rw [hch]
              dsimp only
              rw [mapGet_mapInsert]
              by_cases hcase : ch.user_id = user.id
              · rw [if_pos hcase]
                dsimp only
                have huu : user2 = user := by
                  rw [hcase] at hu
                  rw [hu] at hu2
                  exact (Option.some.inj hu2).symm
                rw [huu]
                rw [hv]
                dsimp only
                unfold create_session
                dsimp only
                rw [mapGet_mapInsert, if_pos rfl]
                rfl
              · rw [if_neg hcase]
                rw [hu]
                dsimp only
                rw [hv]
                dsimp only
                unfold create_session
                dsimp only
                rw [mapGet_mapInsert, if_pos rfl]
                rfl

/-- Witness for the amended C3 on the concrete run `c3State1 → c3State2`. -/
theorem verify_answer_repeatable_witness :
    mapGet c3State2.challenges "ch1" = mapGet c3State1.challenges "ch1" ∧
    (verify_authentication c3State2 "ch1" 1 "sess2").map Prod.fst =
      some (Except.ok "sess2") :=
  verify_answer_repeatable c3State1 c3State2 "ch1" "sess1" "sess2" 1 rfl

end ChaumPedersen

